import Mathlib

/-!
Verification development for the TimelessSkin repository: a shallow Lean 4
embedding of the retrieval-and-recommendation core
(`src/engines/knowledge_base.py` — `KnowledgeManager`, and
`src/engines/recommendation_engine.py` — `RecommendationEngine`) together with
theorems settling the specification claims about it.

Modelling conventions:
* Python floats are modelled as `ℚ` (exact rational arithmetic).
* Python strings are Lean `String`s; the code lowercases the texts it scans,
  so every modelled text field stands for the already-lowercased text.
* Python `x in s` (substring test) is `substr`.
* The time-seeded random values (`random.uniform`) are oracle parameters:
  a function from the product to the pair (random_factor, micro_random).
* `random.shuffle` is an oracle parameter `shuffle`; theorems that need it to
  be a real shuffle assume it permutes its input.
* The FAISS nearest-neighbour pass is an oracle parameter: the list of
  (index, squared-L2-distance) pairs it would return (`none` models a failed
  embedding call, mirroring `if not query_vec: return []`).
-/

namespace TimelessSkin

/-- Python's substring containment `needle in hay` on (lowercased) text. -/
def substr (needle hay : String) : Bool :=
  decide (needle.toList <:+: hay.toList)

/-- `any(word in text for word in words)`. -/
def anySub (words : List String) (text : String) : Bool :=
  words.any (fun w => substr w text)

/-- First-match lookup in an association list keyed by strings
(Python `dict` access). -/
def lookupStr {α : Type} : List (String × α) → String → Option α
  | [], _ => none
  | (k, v) :: rest, key => if k = key then some v else lookupStr rest key

/-- `dict.get(key, [])` over the association-list model. -/
def lookupD {α : Type} (l : List (String × List α)) (key : String) : List α :=
  (lookupStr l key).getD []

/-- Stable insertion into a descending-sorted list: the inserted element goes
before the first element whose key is not greater than its own.  Composed into
`sortByDesc` this is extensionally Python's stable
`sorted(key=f, reverse=True)`. -/
def insertDescBy {α : Type} (f : α → ℚ) (x : α) : List α → List α
  | [] => [x]
  | y :: ys => if f x < f y then y :: insertDescBy f x ys else x :: y :: ys

/-- Stable sort, descending by the rational key `f`
(Python `sorted(key=f, reverse=True)`). -/
def sortByDesc {α : Type} (f : α → ℚ) : List α → List α
  | [] => []
  | x :: xs => insertDescBy f x (sortByDesc f xs)

theorem perm_insertDescBy {α : Type} (f : α → ℚ) (x : α) (l : List α) :
    List.Perm (insertDescBy f x l) (x :: l) := by
  induction l with
  | nil => simp [insertDescBy]
  | cons y ys ih =>
    simp only [insertDescBy]
    split
    · exact ((ih.cons y).trans (List.Perm.swap x y ys))
    · exact List.Perm.refl _

theorem perm_sortByDesc {α : Type} (f : α → ℚ) (l : List α) :
    List.Perm (sortByDesc f l) l := by
  induction l with
  | nil => simp [sortByDesc]
  | cons x xs ih =>
    exact (perm_insertDescBy f x (sortByDesc f xs)).trans (ih.cons x)

theorem sorted_insertDescBy {α : Type} (f : α → ℚ) (x : α) (l : List α)
    (h : l.Sorted (fun a b => f b ≤ f a)) :
    (insertDescBy f x l).Sorted (fun a b => f b ≤ f a) := by
  induction l with
  | nil => simp [insertDescBy]
  | cons y ys ih =>
    simp only [insertDescBy]
    rcases List.sorted_cons.mp h with ⟨hy, hys⟩
    split
    · rename_i hlt
      refine List.sorted_cons.mpr ⟨?_, ih hys⟩
      intro b hb
      rcases List.mem_cons.mp ((perm_insertDescBy f x ys).mem_iff.mp hb) with hb | hb
      · subst hb; exact le_of_lt hlt
      · exact hy b hb
    · rename_i hnlt
      refine List.sorted_cons.mpr ⟨?_, h⟩
      intro b hb
      rcases List.mem_cons.mp hb with hb | hb
      · subst hb; exact le_of_not_lt hnlt
      · exact le_trans (hy b hb) (le_of_not_lt hnlt)

theorem sorted_sortByDesc {α : Type} (f : α → ℚ) (l : List α) :
    (sortByDesc f l).Sorted (fun a b => f b ≤ f a) := by
  induction l with
  | nil => simp [sortByDesc]
  | cons x xs ih => exact sorted_insertDescBy f x _ ih

theorem length_sortByDesc {α : Type} (f : α → ℚ) (l : List α) :
    (sortByDesc f l).length = l.length :=
  (perm_sortByDesc f l).length_eq

theorem mem_sortByDesc {α : Type} (f : α → ℚ) (l : List α) (a : α) :
    a ∈ sortByDesc f l ↔ a ∈ l :=
  (perm_sortByDesc f l).mem_iff

/-! ## KnowledgeManager (`src/engines/knowledge_base.py`)

The corpus, metadata inverted index, cache and `search` are modelled
faithfully; the FAISS vector index and the embedding model are external
oracles (`hasIndex` mirrors `vector_index is None`, and the
nearest-neighbour result is a parameter of `search`). -/

/-- A metadata value: a string, a list of strings, or Python `None`
(`data.get("condition")` can be absent). -/
inductive MVal where
  | s (v : String)
  | l (vs : List String)
  | pynone
deriving DecidableEq

/-- The JSON fields of a raw knowledge document that
`_extract_metadata` / `_process_document` read. `contentText` stands for the
flattened text `_extract_content` produces and `source` for
`data.get("source", "unknown")`. -/
structure RawData where
  condition : Option String := none
  severity_keys : List String := []
  related_conditions : List String := []
  categoryField : Option String := none
  suitable_for : List String := []
  ingredients : List String := []
  source : Option String := none
  contentText : String := ""
deriving DecidableEq

/-- A stored document as built by `_process_document` (the `timestamp` field
is omitted: wall-clock time is outside the model and no claim reads it). -/
structure StoredDoc where
  content : String
  metadata : List (String × MVal)
  category : String
  source : String
deriving DecidableEq

/-- A search result: a copy of a stored document with `similarity_score`
set on the copy (`doc = self.documents[idx].copy(); doc["similarity_score"] = ...`). -/
structure ScoredDoc where
  doc : StoredDoc
  similarity_score : ℚ
deriving DecidableEq

/-- The mutable state of a `KnowledgeManager`: documents, the inverted
metadata index `"key:value" -> [docId]`, the query cache, and whether
`vector_index` is non-`None`. -/
structure KM where
  documents : List StoredDoc
  metadataIndex : List (String × List Nat)
  cache : List (String × List ScoredDoc)
  hasIndex : Bool
deriving DecidableEq

/-- The inverted-index key `f"{key}:{v}"`. -/
def mkKey (k v : String) : String := k ++ ":" ++ v

/-- `self.metadata_index[key].append(i)` on a `defaultdict(list)`. -/
def indexAppend : List (String × List Nat) → String → Nat → List (String × List Nat)
  | [], key, i => [(key, [i])]
  | (k, v) :: rest, key, i =>
    if k = key then (k, v ++ [i]) :: rest else (k, v) :: indexAppend rest key i

/-- The list of values a metadata value contributes to the inverted index
(`values = value if isinstance(value, list) else [value]`, with `None`
rendering as `"None"` inside the f-string key). -/
def mvalues : MVal → List String
  | .s v => [v]
  | .l vs => vs
  | .pynone => ["None"]

/-- `_extract_metadata`: the fixed per-category metadata dictionary,
in insertion order. -/
def extractMetadata (data : RawData) (category : String) : List (String × MVal) :=
  ("category", MVal.s category) ::
    (if category = "skin_conditions" then
      [("condition_type", (data.condition.elim MVal.pynone MVal.s)),
       ("severity", MVal.l data.severity_keys),
       ("related_conditions", MVal.l data.related_conditions)]
    else if category = "products" then
      [("product_type", (data.categoryField.elim MVal.pynone MVal.s)),
       ("suitable_for", MVal.l data.suitable_for),
       ("ingredients", MVal.l data.ingredients)]
    else [])

/-- The `(key, rendered value)` pairs a metadata dictionary feeds into the
inverted index, in iteration order. -/
def mdPairs (md : List (String × MVal)) : List (String × String) :=
  md.flatMap (fun kv => (mvalues kv.2).map (fun v => (kv.1, v)))

/-- Register document `i` in the inverted index under all its metadata pairs. -/
def updateIndex (idx : List (String × List Nat)) (i : Nat) :
    List (String × String) → List (String × List Nat)
  | [] => idx
  | kv :: rest => updateIndex (indexAppend idx (mkKey kv.1 kv.2) i) i rest

/-- `_process_document`: append the document and index its metadata. -/
def processDoc (st : List StoredDoc × List (String × List Nat))
    (raw : RawData × String) : List StoredDoc × List (String × List Nat) :=
  let md := extractMetadata raw.1 raw.2
  let doc : StoredDoc :=
    { content := raw.1.contentText
      metadata := md
      category := raw.2
      source := raw.1.source.getD "unknown" }
  (st.1 ++ [doc], updateIndex st.2 st.1.length (mdPairs md))

/-- A `KnowledgeManager` freshly built from a list of raw documents
(`_load_knowledge` + `_build_index`; the empty-corpus branch of
`_build_index` still creates a FAISS index, so `hasIndex` is `true`). -/
def buildKM (raws : List (RawData × String)) : KM :=
  let di := raws.foldl processDoc ([], [])
  { documents := di.1, metadataIndex := di.2, cache := [], hasIndex := true }

/-- f-string rendering of the optional `category` argument
(`None` renders as `"None"`). -/
def pyStrOpt : Option String → String
  | none => "None"
  | some s => s

/-- CPython `repr` of a metadata value, for `str(metadata_filters)`. -/
def reprMVal : MVal → String
  | .s v => "\x27" ++ v ++ "\x27"
  | .l vs => "[" ++ String.intercalate ", " (vs.map (fun v => "\x27" ++ v ++ "\x27")) ++ "]"
  | .pynone => "None"

/-- `str(metadata_filters)`: `"None"` for `None`, CPython dict repr otherwise. -/
def pyStrFilters : Option (List (String × MVal)) → String
  | none => "None"
  | some fs =>
    "\x7b" ++
      String.intercalate ", "
        (fs.map (fun kv => "\x27" ++ kv.1 ++ "\x27: " ++ reprMVal kv.2)) ++ "\x7d"

/-- The cache key `f"{query}:{category}:{str(metadata_filters)}:{top_k}"`. -/
def cacheKey (query : String) (category : Option String)
    (filters : Option (List (String × MVal))) (top_k : Nat) : String :=
  query ++ ":" ++ pyStrOpt category ++ ":" ++ pyStrFilters filters ++ ":" ++ toString top_k

/-- `self.cache[key] = results` (overwrite or append). -/
def cacheSet : List (String × List ScoredDoc) → String → List ScoredDoc →
    List (String × List ScoredDoc)
  | [], key, res => [(key, res)]
  | (k, v) :: rest, key, res =>
    if k = key then (k, res) :: rest else (k, v) :: cacheSet rest key res

/-- The similarity score exposed to callers: `1 / (1 + distance)`. -/
def simScore (dist : ℚ) : ℚ := 1 / (1 + dist)

/-- Whether document index `i` survives the category / metadata filters
(set-intersection over the inverted index; extensionally the code's
`filtered_indices` intersection). -/
def passFilters (km : KM) (category : Option String)
    (filters : Option (List (String × MVal))) (i : Nat) : Bool :=
  (match category with
   | none => true
   | some c => (lookupD km.metadataIndex (mkKey "category" c)).contains i) &&
  (match filters with
   | none => true
   | some fs =>
     fs.all (fun kv =>
       (mvalues kv.2).all (fun v =>
         (lookupD km.metadataIndex (mkKey kv.1 v)).contains i)))

/-- The result-collection loop over the nearest-neighbour pairs: keep an
index if it is in range, passes the filters and was not seen yet; the kept
record is a copy of the stored document with the score added. -/
def collectResults (km : KM) (pred : Nat → Bool) :
    List (Nat × ℚ) → List Nat → List ScoredDoc
  | [], _ => []
  | (idx, dist) :: rest, seen =>
    match km.documents.get? idx with
    | some d =>
      if pred idx && !(seen.contains idx) then
        { doc := d, similarity_score := simScore dist } ::
          collectResults km pred rest (idx :: seen)
      else collectResults km pred rest seen
    | none => collectResults km pred rest seen

/-- `KnowledgeManager.search`.  `nn` is the FAISS oracle: the
(index, squared-L2-distance) pairs `self.vector_index.search` would return
(`none` models `if not query_vec: return []`).  Returns the result list and
the successor state (only the cache can change). -/
def search (km : KM) (nn : Option (List (Nat × ℚ))) (query : String)
    (category : Option String) (filters : Option (List (String × MVal)))
    (top_k : Nat) (use_cache : Bool) : List ScoredDoc × KM :=
  let key := cacheKey query category filters top_k
  match (if use_cache then lookupStr km.cache key else none) with
  | some cached => (cached, km)
  | none =>
    if km.documents.isEmpty || !km.hasIndex then ([], km)
    else
      match nn with
      | none => ([], km)
      | some pairs =>
        let pairsTaken := pairs.take (min (top_k * 2) km.documents.length)
        let collected := collectResults km (passFilters km category filters) pairsTaken []
        let results := (sortByDesc (fun r => r.similarity_score) collected).take top_k
        if use_cache then (results, { km with cache := cacheSet km.cache key results })
        else (results, km)

/-! ## RecommendationEngine (`src/engines/recommendation_engine.py`)

All text fields stand for the already-lowercased strings the code scans
(`str(...).lower()`).  Randomness is an oracle `rnd` mapping a product to its
(random_factor, micro_random) pair — both are functions of the seeds the code
derives from wall-clock time and the product-name hash, so equal products
always receive equal values within a run.  `random.shuffle` is an oracle
function parameter. -/

/-- The product fields `_calculate_match_score` / `_match_products` read.
`benefits` / `effects` stand for `str(product.get(...))` (the scan is a
substring test on that rendering). -/
structure Product where
  product_name : String := ""
  details : String := ""
  product_type : String := ""
  category : String := ""
  brand : String := ""
  benefits : String := ""
  effects : String := ""
  target_concerns : List String := []
  special_features : Bool := false
deriving DecidableEq

/-- The value under `user_profile["skin_analysis"]` / `["raw_profile"]`:
either free text, or a dict with a `"性别"` entry whose `str()` rendering is
`rendered` (empty dict renders as the empty scan text, matching the code's
truthiness guard). -/
inductive SkinAnalysisData where
  | strData (s : String)
  | dictData (gender : String) (rendered : String)
deriving DecidableEq

/-- The user-profile fields the engine reads. -/
structure UserProfile where
  skin_analysis : Option SkinAnalysisData := none
  raw_profile : Option SkinAnalysisData := none
  detected_gender : String := "未检测到"
  special_needs : Bool := false
deriving DecidableEq

/-- `skin_analysis_data`: `user_profile["skin_analysis"]` if present, else
`user_profile["raw_profile"]`. -/
def skinData (u : UserProfile) : Option SkinAnalysisData :=
  match u.skin_analysis with
  | some d => some d
  | none => u.raw_profile

/-- `skin_analysis = str(skin_analysis_data).lower()` (empty when absent;
substring scans on the empty string all fail, matching the code's
truthiness guard). -/
def saText (u : UserProfile) : String :=
  match skinData u with
  | none => ""
  | some (.strData s) => s
  | some (.dictData _ r) => r

/-- Free-text female keywords of `_calculate_match_score` (method 2). -/
def femaleScanWords : List String :=
  ["女性", "女士", "女", "woman", "female", "女性专用", "女士专用",
   "女孩", "女生", "女性用户", "女性肌肤", "女性皮肤", "女性护肤",
   "她", "她的", "女性朋友", "女性客户", "女性消费者",
   "女性面部", "女性特征", "女性轮廓", "女性皮肤", "女性肤质"]

/-- Free-text male keywords of `_calculate_match_score` (method 2). -/
def maleScanWords : List String :=
  ["男性", "男士", "男", "man", "male", "男性专用", "男士专用",
   "男孩", "男生", "男性用户", "男性肌肤", "男性皮肤", "男性护肤",
   "他", "他的", "男性朋友", "男性客户", "男性消费者",
   "男性面部", "男性特征", "男性轮廓", "男性皮肤", "男性肤质"]

/-- Product-text male markers used by the hard veto for female users. -/
def vetoMaleWords : List String :=
  ["男士", "男性", "男", "man", "male", "男性专用", "男士专用"]

/-- Product-text female markers used by the hard veto for male users. -/
def vetoFemaleWords : List String :=
  ["女士", "女性", "女", "woman", "female", "女性专用", "女士专用"]

/-- The female keywords of the second gender check in `_match_products`. -/
def secondaryFemaleWords : List String := ["女性", "女士", "女", "woman", "female"]

/-- The male keywords of the second gender check in `_match_products`. -/
def secondaryMaleWords : List String := ["男性", "男士", "男", "man", "male"]

/-- Explicit male-exclusive markers of the relaxed fallback pass. -/
def explicitMaleWords : List String := ["男士专用", "男性专用", "男士系列", "男性系列"]

/-- Explicit female-exclusive markers of the relaxed fallback pass. -/
def explicitFemaleWords : List String := ["女士专用", "女性专用", "女士系列", "女性系列"]

/-- `product_text = f"{product_name} {product_details}"`. -/
def ptext (p : Product) : String := p.product_name ++ " " ++ p.details

/-- Gender detection from the profile alone, methods 1–2 of
`_calculate_match_score` in order: the `detected_gender` state field, then the
`"性别"` key of a dict-typed skin analysis, then the keyword scan over the
skin-analysis text.  Returns `(is_female, is_male)`. -/
def profileFM (u : UserProfile) : Bool × Bool :=
  if u.detected_gender = "女性" then (true, false)
  else if u.detected_gender = "男性" then (false, true)
  else
    match skinData u with
    | some (.dictData g _) =>
      if g = "女性" || g = "女" then (true, false)
      else if g = "男性" || g = "男" then (false, true)
      else (anySub femaleScanWords (saText u), anySub maleScanWords (saText u))
    | _ => (anySub femaleScanWords (saText u), anySub maleScanWords (saText u))

/-- Full gender detection including method 3 (inference from the product
name when the profile gave no signal). -/
def detectFM (u : UserProfile) (product_name : String) : Bool × Bool :=
  let fm := profileFM u
  if !fm.1 && !fm.2 then
    if substr "女士" product_name || substr "女性" product_name ||
        substr "女" product_name then (true, false)
    else if substr "男士" product_name || substr "男性" product_name ||
        substr "男" product_name then (false, true)
    else (false, false)
  else fm

/-- "elderly" keywords scanned over the skin-analysis text. -/
def elderlyWords : List String := ["老年", "年长", "成熟", "50+", "60+", "70+"]

/-- "middle-aged" keywords scanned over the skin-analysis text. -/
def middleAgedWords : List String := ["中年", "40+", "45+"]

/-- Product-text keywords for the +3.0 elderly bonus. -/
def elderlyProdWords1 : List String := ["老年", "年长", "成熟", "抗老", "抗皱", "紧致"]

/-- Product-text keywords for the +2.0 elderly-benefit bonus. -/
def elderlyProdWords2 : List String := ["抗皱", "紧致", "修护", "滋养", "温和"]

/-- Product-text keywords for the +1.5 elderly-ingredient bonus. -/
def elderlyProdWords3 : List String := ["神经酰胺", "玻尿酸", "胶原蛋白", "维生素e"]

/-- Product-text keywords for the +2.0 middle-aged bonus. -/
def middleProdWords : List String := ["抗初老", "紧致", "修护"]

/-- The scored product `match_info["product"]`: the input product with
`match_score` and `reason` added. -/
structure ScoredProduct where
  toProduct : Product
  match_score : ℚ
  reason : String
deriving DecidableEq

/-- The age-fit score (section 2 of `_calculate_match_score`), with its
reasons in firing order. -/
def ageScorePart (txt sa : String) : ℚ × List String :=
  if anySub elderlyWords sa then
    let s1 : ℚ × List String :=
      if anySub elderlyProdWords1 txt then (3, ["👴 专为老年人设计"]) else (0, [])
    let s2 : ℚ × List String :=
      if anySub elderlyProdWords2 txt then (2, ["✨ 适合老年人的功效"]) else (0, [])
    let s3 : ℚ × List String :=
      if anySub elderlyProdWords3 txt then (3/2, ["💊 适合老年人的成分"]) else (0, [])
    (s1.1 + s2.1 + s3.1, s1.2 ++ s2.2 ++ s3.2)
  else if anySub middleAgedWords sa then
    if anySub middleProdWords txt then (2, ["👨 适合中年人的产品"]) else (0, [])
  else (0, [])

/-- The skin-problem score (section 3): fold over the condition dict in
insertion order. -/
def problemScorePart (p : Product) (sc : List (String × ℚ)) : ℚ × List String :=
  sc.foldl
    (fun acc cs =>
      if p.target_concerns.contains cs.1 then
        (acc.1 + cs.2 * (3/2), acc.2 ++ ["🎯 匹配" ++ cs.1 ++ "问题"])
      else if substr cs.1 p.benefits || substr cs.1 p.effects then
        (acc.1 + cs.2 * 1, acc.2 ++ ["✨ 功效包含" ++ cs.1])
      else if substr cs.1 p.category then
        (acc.1 + cs.2 * (4/5), acc.2 ++ ["📂 类别包含" ++ cs.1])
      else acc)
    (0, [])

/-- The product-type bonus (section 4): each of the three tests appends its
reason, but the bonus is an assignment, so it counts at most once. -/
def categoryBonusPart (p : Product) (sc : List (String × ℚ)) : ℚ × List String :=
  let c1 := (sc.any (fun cs => cs.1 = "干燥" || cs.1 = "缺水")) &&
    (substr "保湿" p.category || substr "补水" p.benefits)
  let c2 := (sc.any (fun cs => cs.1 = "皱纹" || cs.1 = "老化")) &&
    (substr "抗皱" p.category || substr "抗老" p.benefits)
  let c3 := (sc.any (fun cs => cs.1 = "敏感")) &&
    (substr "敏感" p.category || substr "温和" p.benefits)
  (if c1 || c2 || c3 then 4/5 else 0,
   (if c1 then ["💧 保湿补水产品"] else []) ++
   (if c2 then ["🔄 抗皱抗老产品"] else []) ++
   (if c3 then ["🛡️ 温和敏感肌产品"] else []))

/-- `_calculate_match_score`.  `rnd p = (random_factor, micro_random)` is the
oracle for the two time/hash-seeded random draws.  Returns
`(match_info["product"], match_info["score"])`. -/
def calculateMatchScore (rnd : Product → ℚ × ℚ) (p : Product)
    (sc : List (String × ℚ)) (u : UserProfile) : ScoredProduct × ℚ :=
  let fm := detectFM u p.product_name
  let txt := ptext p
  if fm.1 && anySub vetoMaleWords txt then
    ({ toProduct := p, match_score := -100,
       reason := "❌ 男士专用产品，不适合女性使用" }, -100)
  else if !fm.1 && fm.2 && anySub vetoFemaleWords txt then
    ({ toProduct := p, match_score := -100,
       reason := "❌ 女士专用产品，不适合男性使用" }, -100)
  else
    let gender : ℚ × List String :=
      if fm.1 then
        if anySub vetoFemaleWords txt then (2, ["✅ 女士专用产品，针对性更强"])
        else (2, ["✅ 通用产品，适合所有性别"])
      else if fm.2 then
        if anySub vetoMaleWords txt then (2, ["✅ 男士专用产品，针对性更强"])
        else (2, ["✅ 通用产品，适合所有性别"])
      else
        if anySub vetoMaleWords txt then (1, ["⚠️ 男士专用产品，性别未确定"])
        else if anySub vetoFemaleWords txt then (1, ["⚠️ 女士专用产品，性别未确定"])
        else (2, ["✅ 通用产品，适合所有性别"])
    let age := ageScorePart txt (saText u)
    let problem := problemScorePart p sc
    let catb := categoryBonusPart p sc
    let special : ℚ × List String :=
      if u.special_needs && p.special_features then (1/2, ["⭐ 满足特殊需求"])
      else (0, [])
    let raw := (gender.1 + age.1 + problem.1 + catb.1 + special.1 + (rnd p).2) * (rnd p).1
    let total := if raw < -50 then -50 else raw
    ({ toProduct := p, match_score := total,
       reason := String.intercalate "; " (gender.2 ++ age.2 ++ problem.2 ++ catb.2 ++ special.2) },
     total)

/-- The second gender check of `_match_products` (skin-analysis text only,
short keyword lists). -/
def secondaryFM (u : UserProfile) : Bool × Bool :=
  (anySub secondaryFemaleWords (saText u), anySub secondaryMaleWords (saText u))

/-- The strict matching pass of `_match_products`: score every product, drop
those below the −50 veto threshold, then apply the second gender check. -/
def matchedOf (rnd : Product → ℚ × ℚ) (sc : List (String × ℚ)) (u : UserProfile)
    (products : List Product) : List ScoredProduct :=
  products.filterMap (fun p =>
    let r := calculateMatchScore rnd p sc u
    if r.2 < -50 then none
    else
      let fm2 := secondaryFM u
      if fm2.1 then
        if anySub vetoMaleWords (ptext p) then none else some r.1
      else if fm2.2 then
        if anySub vetoFemaleWords (ptext p) then none else some r.1
      else some r.1)

/-- `round(score, 1)`: round to one decimal.  (CPython rounds floats
half-to-even; the half-up tie rule used here differs only on exact `.05`
boundaries, which no claim or concrete input exercises.) -/
def round1 (q : ℚ) : ℚ := (⌊q * 10 + 1/2⌋ : ℤ) / 10

/-- Brand keywords of the diversity pass. -/
def brandKeywords : List String := ["欧莱雅", "loreal", "巴黎欧莱雅"]

/-- Category keywords of the diversity pass. -/
def categoryKeywords : List String := ["面霜", "精华", "乳液", "爽肤水", "面膜", "洁面"]

/-- The first brand keyword occurring in the product name, if any. -/
def currentBrand (p : ScoredProduct) : Option String :=
  brandKeywords.find? (fun k => substr k p.toProduct.product_name)

/-- The first category keyword occurring in the product type or name, if any. -/
def currentCategory (p : ScoredProduct) : Option String :=
  categoryKeywords.find? (fun k =>
    substr k p.toProduct.product_type || substr k p.toProduct.product_name)

/-- Whether a selected product counts toward the brand cap
(`any(b in product_name for b in brand_keywords)`). -/
def isBranded (p : ScoredProduct) : Bool :=
  brandKeywords.any (fun k => substr k p.toProduct.product_name)

/-- Whether a selected product counts toward the category cap. -/
def isCategorized (p : ScoredProduct) : Bool :=
  categoryKeywords.any (fun k =>
    substr k p.toProduct.product_type || substr k p.toProduct.product_name)

/-- The state of the diversity-selection loop. -/
structure SelState where
  diverse : List ScoredProduct
  selBrands : List String
  selCats : List String

/-- One iteration of the diversity-selection loop: stop at 3, skip a
candidate whose brand and category are both already selected, skip one that
would breach either 2-per-brand-keyword or 2-per-category-keyword cap;
otherwise select it. -/
def selStep (st : SelState) (p : ScoredProduct) : SelState :=
  if 3 ≤ st.diverse.length then st
  else
    let cb := currentBrand p
    let cc := currentCategory p
    if (cb.any (fun b => st.selBrands.contains b)) &&
        (cc.any (fun c => st.selCats.contains c)) then st
    else if cb.isSome && decide (2 ≤ st.diverse.countP isBranded) then st
    else if cc.isSome && decide (2 ≤ st.diverse.countP isCategorized) then st
    else
      { diverse := st.diverse ++ [p]
        selBrands := cb.elim st.selBrands (· :: st.selBrands)
        selCats := cc.elim st.selCats (· :: st.selCats) }

/-- The distinct one-decimal score keys of the sorted candidate list,
sorted descending (`sorted(score_groups.keys(), reverse=True)`). -/
def scoreKeysDesc (l : List ScoredProduct) : List ℚ :=
  sortByDesc id ((l.map (fun p => round1 p.match_score)).dedup)

/-- The score buckets, highest key first, preserving the candidate order
inside each bucket. -/
def groupsOf (l : List ScoredProduct) : List (List ScoredProduct) :=
  (scoreKeysDesc l).map (fun k => l.filter (fun p => decide (round1 p.match_score = k)))

/-- The diversity phase: shuffle each score bucket, then run the selection
loop over the buckets from the highest score down. -/
def diversePhase (shuffle : List ScoredProduct → List ScoredProduct)
    (sorted : List ScoredProduct) : List ScoredProduct :=
  ((((groupsOf sorted).map shuffle).flatten).foldl selStep
    { diverse := [], selBrands := [], selCats := [] }).diverse

/-- Diversity selection plus backfill: if fewer than 3 were selected, refill
in shuffled order from the not-yet-selected candidates, ignoring the caps. -/
def selectDiverse (shuffle : List ScoredProduct → List ScoredProduct)
    (matched : List ScoredProduct) : List ScoredProduct :=
  let sorted := sortByDesc (fun p => p.match_score) matched
  let d := diversePhase shuffle sorted
  d ++ (shuffle (sorted.filter (fun p => decide (p ∉ d)))).take (3 - d.length)

/-- The relaxed fallback pass: re-score everything but only drop products
carrying explicit gender-exclusive markers (and only when the secondary
gender check fires). -/
def fallbackMatched (rnd : Product → ℚ × ℚ) (sc : List (String × ℚ))
    (u : UserProfile) (products : List Product) : List ScoredProduct :=
  products.filterMap (fun p =>
    let r := calculateMatchScore rnd p sc u
    let fm2 := secondaryFM u
    if fm2.1 then
      if anySub explicitMaleWords (ptext p) then none else some r.1
    else if fm2.2 then
      if anySub explicitFemaleWords (ptext p) then none else some r.1
    else some r.1)

/-- The placeholder returned when even the relaxed pass finds nothing
(also re-used verbatim by `generate_recommendations`). -/
def noMatchPlaceholder : ScoredProduct :=
  { toProduct := { product_name := "暂无匹配产品", brand := "系统提示" }
    match_score := 0
    reason := "暂时没有找到完全匹配您需求的产品，建议咨询客服获取个性化推荐" }

/-- `RecommendationEngine._match_products`. -/
def matchProducts (rnd : Product → ℚ × ℚ)
    (shuffle : List ScoredProduct → List ScoredProduct)
    (sc : List (String × ℚ)) (u : UserProfile) (products : List Product) :
    List ScoredProduct :=
  let matched := matchedOf rnd sc u products
  if matched.isEmpty then
    let fb := fallbackMatched rnd sc u products
    if fb.isEmpty then [noMatchPlaceholder]
    else (sortByDesc (fun p => p.match_score) fb).take 3
  else selectDiverse shuffle matched

/-- The placeholder returned when no product info reached the engine. -/
def noProductPlaceholder : ScoredProduct :=
  { toProduct := { product_name := "暂无产品推荐", brand := "系统提示" }
    match_score := 0
    reason := "产品检索服务暂时不可用，请稍后重试或联系客服" }

/-- The placeholder the top-level `except Exception` handler returns. -/
def systemErrorPlaceholder : ScoredProduct :=
  { toProduct := { product_name := "推荐系统异常", brand := "系统提示" }
    match_score := 0
    reason := "推荐系统暂时出现问题，建议稍后重试或联系客服" }

/-- The `try:` body of `RecommendationEngine.generate_recommendations`:
`Except.error` models the `raise ValueError` on a malformed (falsy)
conditions dict. -/
def generateRecommendationsE (rnd : Product → ℚ × ℚ)
    (shuffle : List ScoredProduct → List ScoredProduct)
    (sc : List (String × ℚ)) (u : UserProfile) (products : List Product) :
    Except String (List ScoredProduct) :=
  if sc.isEmpty then Except.error "无效的皮肤状况数据"
  else if products.isEmpty then Except.ok [noProductPlaceholder]
  else
    let m := matchProducts rnd shuffle sc u products
    if m.isEmpty then Except.ok [noMatchPlaceholder] else Except.ok m

/-- `RecommendationEngine.generate_recommendations`: the whole body runs
under `try ... except Exception`, which converts any raised error into the
degraded placeholder list. -/
def generateRecommendations (rnd : Product → ℚ × ℚ)
    (shuffle : List ScoredProduct → List ScoredProduct)
    (sc : List (String × ℚ)) (u : UserProfile) (products : List Product) :
    List ScoredProduct :=
  match generateRecommendationsE rnd shuffle sc u products with
  | Except.ok r => r
  | Except.error _ => [systemErrorPlaceholder]

/-- One entry of `PRODUCT_RULES` in `src/config/settings.py`. -/
structure ProductRuleSet where
  max_recommendations : Nat
  diversity_threshold : ℚ
  brand_diversity : Bool
  category_diversity : Bool
  randomization : Bool
  score_grouping : Bool
  age_bonus : Option ℚ := none
  safety_bonus : Option ℚ := none
deriving DecidableEq

/-- `PRODUCT_RULES["default"]`. -/
def PRODUCT_RULES_default : ProductRuleSet :=
  { max_recommendations := 3, diversity_threshold := 7/10, brand_diversity := true
    category_diversity := true, randomization := true, score_grouping := true }

/-- `PRODUCT_RULES["elderly"]`. -/
def PRODUCT_RULES_elderly : ProductRuleSet :=
  { max_recommendations := 4, diversity_threshold := 4/5, brand_diversity := true
    category_diversity := true, randomization := true, score_grouping := true
    age_bonus := some (6/5) }

/-- `PRODUCT_RULES["sensitive"]`. -/
def PRODUCT_RULES_sensitive : ProductRuleSet :=
  { max_recommendations := 3, diversity_threshold := 9/10, brand_diversity := true
    category_diversity := true, randomization := true, score_grouping := true
    safety_bonus := some (13/10) }

/-- `RecommendationEngine._get_product_rules`: always the default rule set,
whatever the profile says. -/
def getProductRules (_u : UserProfile) : ProductRuleSet := PRODUCT_RULES_default

/-! ## Supporting lemmas on `search` -/

/-- Every record the collection loop emits comes from a nearest-neighbour
pair whose index is in range and passes the filters, and carries the score
`1 / (1 + distance)` of its pair. -/
theorem mem_collectResults {km : KM} {pred : Nat → Bool} :
    ∀ {pairs : List (Nat × ℚ)} {seen : List Nat} {r : ScoredDoc},
      r ∈ collectResults km pred pairs seen →
      ∃ idx dist, (idx, dist) ∈ pairs ∧ km.documents.get? idx = some r.doc ∧
        pred idx = true ∧ r.similarity_score = simScore dist := by
  intro pairs
  induction pairs with
  | nil => intro seen r hr; simp [collectResults] at hr
  | cons hd tl ih =>
    intro seen r hr
    obtain ⟨idx, dist⟩ := hd
    unfold collectResults at hr
    split at hr
    · rename_i d hd
      split at hr
      · rename_i hcond
        rcases List.mem_cons.mp hr with hr | hr
        · subst hr
          exact ⟨idx, dist, List.mem_cons_self _ _, hd, (Bool.and_eq_true_iff.mp hcond).1, rfl⟩
        · obtain ⟨i, ds, hmem, hdoc, hpred, hs⟩ := ih hr
          exact ⟨i, ds, List.mem_cons_of_mem _ hmem, hdoc, hpred, hs⟩
      · obtain ⟨i, ds, hmem, hdoc, hpred, hs⟩ := ih hr
        exact ⟨i, ds, List.mem_cons_of_mem _ hmem, hdoc, hpred, hs⟩
    · obtain ⟨i, ds, hmem, hdoc, hpred, hs⟩ := ih hr
      exact ⟨i, ds, List.mem_cons_of_mem _ hmem, hdoc, hpred, hs⟩

/-- On a cache miss, every record `search` returns comes from a
nearest-neighbour pair that passed the filters. -/
theorem search_results_mem (km : KM) (nn : Option (List (Nat × ℚ)))
    (q : String) (copt : Option String) (fopt : Option (List (String × MVal)))
    (k : Nat) (uc : Bool)
    (hc : lookupStr km.cache (cacheKey q copt fopt k) = none) :
    ∀ r ∈ (search km nn q copt fopt k uc).1,
      ∃ idx dist pairs, nn = some pairs ∧ (idx, dist) ∈ pairs ∧
        km.documents.get? idx = some r.doc ∧
        passFilters km copt fopt idx = true ∧
        r.similarity_score = simScore dist := by
  intro r hr
  have h1 : (if uc then lookupStr km.cache (cacheKey q copt fopt k) else none) =
      none := by cases uc <;> simp [hc]
  simp only [search, h1] at hr
  by_cases hemp : (km.documents.isEmpty || !km.hasIndex) = true
  · rw [if_pos hemp] at hr; simp at hr
  · rw [if_neg hemp] at hr
    rcases nn with _ | pairs
    · simp at hr
    · have hr2 : r ∈ (sortByDesc (fun s => s.similarity_score)
          (collectResults km (passFilters km copt fopt)
            (pairs.take (min (k * 2) km.documents.length)) [])).take k := by
        cases uc <;> simpa using hr
      have hr3 := (mem_sortByDesc _ _ r).mp (List.mem_of_mem_take hr2)
      obtain ⟨idx, dist, hmem, hdoc, hpred, hs⟩ := mem_collectResults hr3
      exact ⟨idx, dist, pairs, rfl, List.take_subset _ _ hmem, hdoc, hpred, hs⟩

/-- A freshly built knowledge manager has an empty cache, so its first
`search` never hits the cache. -/
theorem buildKM_cache_lookup (raws : List (RawData × String)) (key : String) :
    lookupStr (buildKM raws).cache key = none := by
  simp [buildKM, lookupStr]

/-- C8 (confirmed): on an empty document corpus, `KnowledgeManager.search`
returns the empty list for every query, category, filter set, `top_k`,
cache flag and nearest-neighbour oracle, and leaves the state unchanged
(the code returns `[]` before touching the vector index, and the whole body
is additionally wrapped in `try/except` returning `[]`, so no exception can
propagate). -/
theorem search_empty_corpus_returns_nil (nn : Option (List (Nat × ℚ))) (q : String)
    (copt : Option String) (fopt : Option (List (String × MVal))) (k : Nat) (uc : Bool) :
    search (buildKM []) nn q copt fopt k uc = ([], buildKM []) := by
  cases uc <;> simp [search, buildKM, lookupStr]

/-- C10 (confirmed): `search` never mutates the stored corpus — the
documents (length, order and all fields), the metadata index and the index
handle of the successor state are those of the input state; only the cache
may change.  Each returned record is a fresh `ScoredDoc` holding a copy of a
stored document with the score on the copy (`documents[idx].copy()` plus
`doc["similarity_score"] = ...`), so no stored document ever gains a
`similarity_score` key. -/
theorem search_preserves_corpus (km : KM) (nn : Option (List (Nat × ℚ)))
    (q : String) (copt : Option String) (fopt : Option (List (String × MVal)))
    (k : Nat) (uc : Bool) :
    (search km nn q copt fopt k uc).2.documents = km.documents ∧
    (search km nn q copt fopt k uc).2.metadataIndex = km.metadataIndex ∧
    (search km nn q copt fopt k uc).2.hasIndex = km.hasIndex := by
  cases uc <;> simp only [search] <;>
    repeat' first
      | split
      | exact ⟨rfl, rfl, rfl⟩

/-- C7 (confirmed): the similarity score attached to every search result is
`1 / (1 + d)` for the squared-L2 distance `d` of its nearest-neighbour pair;
for non-negative distances it lies strictly in `(0, 1]` and is strictly
decreasing in the distance; and the returned list is sorted by this score
descending. -/
theorem similarity_score_law :
    (∀ d : ℚ, 0 ≤ d → 0 < simScore d ∧ simScore d ≤ 1) ∧
    (∀ d₁ d₂ : ℚ, 0 ≤ d₁ → d₁ < d₂ → simScore d₂ < simScore d₁) ∧
    (∀ (raws : List (RawData × String)) (nn : Option (List (Nat × ℚ)))
        (q : String) (copt : Option String) (fopt : Option (List (String × MVal)))
        (k : Nat) (uc : Bool),
      ((search (buildKM raws) nn q copt fopt k uc).1).Sorted
        (fun a b => b.similarity_score ≤ a.similarity_score)) ∧
    (∀ (raws : List (RawData × String)) (pairs : List (Nat × ℚ))
        (q : String) (copt : Option String) (fopt : Option (List (String × MVal)))
        (k : Nat) (uc : Bool),
      ∀ r ∈ (search (buildKM raws) (some pairs) q copt fopt k uc).1,
        ∃ pr ∈ pairs, r.similarity_score = simScore pr.2) := by
  refine ⟨?_, ?_, ?_, ?_⟩
  · intro d hd
    constructor
    · exact one_div_pos.mpr (by linarith)
    · rw [simScore, div_le_one (by linarith)]; linarith
  · intro d₁ d₂ h1 h2
    exact one_div_lt_one_div_of_lt (by linarith) (by linarith)
  · intro raws nn q copt fopt k uc
    have h1 : (if uc then lookupStr (buildKM raws).cache (cacheKey q copt fopt k)
        else none) = none := by cases uc <;> simp [buildKM_cache_lookup]
    simp only [search, h1]
    by_cases hemp : ((buildKM raws).documents.isEmpty || !(buildKM raws).hasIndex) = true
    · rw [if_pos hemp]; simp
    · rw [if_neg hemp]
      rcases nn with _ | pairs
      · simp
      · have hs : ∀ l : List ScoredDoc,
            ((sortByDesc (fun r => r.similarity_score) l).take k).Sorted
              (fun a b => b.similarity_score ≤ a.similarity_score) := by
          intro l
          have h2 := sorted_sortByDesc (fun r : ScoredDoc => r.similarity_score) l
          exact List.Pairwise.sublist (List.take_sublist _ _) h2
        cases uc <;> simpa using hs _
  · intro raws pairs q copt fopt k uc r hr
    obtain ⟨idx, dist, pairs2, heq, hmem, _, _, hsim⟩ :=
      search_results_mem (buildKM raws) (some pairs) q copt fopt k uc
        (buildKM_cache_lookup raws _) r hr
    obtain rfl : pairs = pairs2 := by injection heq
    exact ⟨(idx, dist), hmem, hsim⟩

/-- Closed witness instantiating the hypotheses of `similarity_score_law`
at concrete distances. -/
theorem similarity_score_law_witness :
    (0 < simScore 3 ∧ simScore 3 ≤ 1) ∧ simScore 5 < simScore 3 :=
  ⟨similarity_score_law.1 3 (by norm_num),
   similarity_score_law.2.1 3 5 (by norm_num) (by norm_num)⟩

/-- Writing a cache entry makes it the one found under its key. -/
theorem lookupStr_cacheSet (c : List (String × List ScoredDoc)) (key : String)
    (res : List ScoredDoc) :
    lookupStr (cacheSet c key res) key = some res := by
  induction c with
  | nil => simp [cacheSet, lookupStr]
  | cons hd tl ih =>
    obtain ⟨k2, v⟩ := hd
    by_cases h : k2 = key <;> simp [cacheSet, lookupStr, h, ih]

/-- A cache hit returns the cached value and leaves the state unchanged. -/
theorem search_cache_hit (km : KM) (nn : Option (List (Nat × ℚ))) (q : String)
    (copt : Option String) (fopt : Option (List (String × MVal))) (k : Nat)
    (res : List ScoredDoc)
    (h : lookupStr km.cache (cacheKey q copt fopt k) = some res) :
    search km nn q copt fopt k true = (res, km) := by
  simp only [search, if_true, h]

/-- After a cache miss on a non-empty corpus, the computed results sit in the
cache under the query tuple's key. -/
theorem search_state_after_miss (km : KM) (ps : List (Nat × ℚ)) (q : String)
    (copt : Option String) (fopt : Option (List (String × MVal))) (k : Nat)
    (hmiss : lookupStr km.cache (cacheKey q copt fopt k) = none)
    (hdocs : km.documents.isEmpty = false) (hidx : km.hasIndex = true) :
    (search km (some ps) q copt fopt k true).2.cache
      = cacheSet km.cache (cacheKey q copt fopt k)
          (search km (some ps) q copt fopt k true).1 := by
  simp only [search, if_true, hmiss]
  rw [if_neg (by simp [hdocs, hidx])]

/-- C5 (corrected) main theorem: a repeated `search` call with the identical
(query, category, metadata_filters, top_k) tuple and `use_cache=True` hits
the entry the first call wrote and returns exactly its results, whatever the
second call's nearest-neighbour oracle would have said.  (The converse
direction of the claim — distinct tuples never sharing an entry — is false;
see the counterexample.) -/
theorem cache_same_tuple_roundtrip (km : KM) (ps : List (Nat × ℚ))
    (nn2 : Option (List (Nat × ℚ))) (q : String) (copt : Option String)
    (fopt : Option (List (String × MVal))) (k : Nat)
    (hmiss : lookupStr km.cache (cacheKey q copt fopt k) = none)
    (hdocs : km.documents.isEmpty = false) (hidx : km.hasIndex = true) :
    search (search km (some ps) q copt fopt k true).2 nn2 q copt fopt k true
      = ((search km (some ps) q copt fopt k true).1,
         (search km (some ps) q copt fopt k true).2) := by
  refine search_cache_hit _ _ _ _ _ _ _ ?_
  rw [search_state_after_miss km ps q copt fopt k hmiss hdocs hidx]
  exact lookupStr_cacheSet _ _ _

/-- A one-document corpus used by the concrete cache scenarios. -/
def collisionRaw : RawData := { contentText := "acne doc", source := some "s" }

/-- The knowledge manager built over that corpus. -/
def collisionKM : KM := buildKM [(collisionRaw, "skin_conditions")]

/-- Closed witness for `cache_same_tuple_roundtrip`: concrete corpus, a
first call that caches, a second identical call (with a failing embedding
oracle) that still returns the cached results. -/
theorem cache_same_tuple_roundtrip_witness :
    search (search collisionKM (some [(0, 0)]) "q" none none 3 true).2
        none "q" none none 3 true
      = ((search collisionKM (some [(0, 0)]) "q" none none 3 true).1,
         (search collisionKM (some [(0, 0)]) "q" none none 3 true).2) :=
  cache_same_tuple_roundtrip collisionKM [(0, 0)] none "q" none none 3
    (by decide) (by decide) (by decide)

/-- C5 counterexample: the cache key is the colon-joined rendering of the
tuple, which is not injective — the distinct tuples
`("a:b:c", None, None, 5)` and `("a", "b:c:None", None, 5)` produce the same
key, and a second call with the second tuple receives the first call's
cached (non-empty) results even though its own retrieval (oracle `[]`)
would have returned nothing. -/
theorem cache_key_not_injective_cex :
    cacheKey "a:b:c" none none 5 = cacheKey "a" (some "b:c:None") none 5 ∧
    ("a:b:c", (none : Option String)) ≠ ("a", some "b:c:None") ∧
    (search (search collisionKM (some [(0, 0)]) "a:b:c" none none 5 true).2
        (some []) "a" (some "b:c:None") none 5 true).1
      = (search collisionKM (some [(0, 0)]) "a:b:c" none none 5 true).1 ∧
    (search collisionKM (some [(0, 0)]) "a:b:c" none none 5 true).1 ≠ [] := by
  refine ⟨by decide, by decide, ?_, ?_⟩ <;>
    norm_num +decide [search, collisionKM, collisionRaw, buildKM, processDoc, extractMetadata,
      mdPairs, mvalues, updateIndex, indexAppend, mkKey, cacheKey, pyStrOpt, pyStrFilters,
      lookupStr, cacheSet, collectResults, passFilters, lookupD, simScore, sortByDesc,
      insertDescBy]

/-! ## Theorems on the recommendation engine -/

/-- A deterministic instance of the randomness oracle:
`random_factor = 1`, `micro_random = 0` for every product. -/
def rnd0 : Product → ℚ × ℚ := fun _ => (1, 0)

/-- C9 (corrected) main theorem: a malformed conditions dict (falsy, i.e.
empty) makes the `try` body raise `ValueError("无效的皮肤状况数据")`, but the
function's own `except Exception` handler catches it and converts it to the
degraded placeholder list, so the immediate caller receives an ordinary list
and never an exception. -/
theorem malformed_conditions_error_is_caught (rnd : Product → ℚ × ℚ)
    (shuffle : List ScoredProduct → List ScoredProduct)
    (sc : List (String × ℚ)) (u : UserProfile) (products : List Product)
    (h : sc = []) :
    generateRecommendationsE rnd shuffle sc u products
        = Except.error "无效的皮肤状况数据" ∧
    generateRecommendations rnd shuffle sc u products = [systemErrorPlaceholder] := by
  subst h
  constructor <;> simp [generateRecommendations, generateRecommendationsE]

/-- Closed witness for `malformed_conditions_error_is_caught`. -/
theorem malformed_conditions_error_is_caught_witness :
    generateRecommendationsE rnd0 id [] ({} : UserProfile) []
        = Except.error "无效的皮肤状况数据" ∧
    generateRecommendations rnd0 id [] ({} : UserProfile) []
        = [systemErrorPlaceholder] :=
  malformed_conditions_error_is_caught rnd0 id [] {} [] rfl

/-- C9 counterexample: with an empty (malformed) conditions dict and a
non-empty catalog, `generate_recommendations` returns the degraded
"推荐系统异常" list — a plain value, not an exception raised to the caller,
contradicting the claimed propagation of contract violations. -/
theorem malformed_conditions_not_raised_cex :
    generateRecommendations rnd0 id [] ({} : UserProfile)
        [{ product_name := "补水液甲" }] = [systemErrorPlaceholder] := rfl

/-- One selection step keeps the output list at three items or fewer. -/
theorem selStep_length_le (st : SelState) (p : ScoredProduct)
    (h : st.diverse.length ≤ 3) : (selStep st p).diverse.length ≤ 3 := by
  unfold selStep
  dsimp only
  split
  · exact h
  · rename_i hlt
    split
    · exact h
    · split
      · exact h
      · split
        · exact h
        · simpa using Nat.succ_le_of_lt (Nat.lt_of_not_le (fun hc => hlt hc))

/-- The selection fold keeps the output list at three items or fewer. -/
theorem foldl_selStep_length_le (l : List ScoredProduct) (st : SelState)
    (h : st.diverse.length ≤ 3) : ((l.foldl selStep st).diverse).length ≤ 3 := by
  induction l generalizing st with
  | nil => exact h
  | cons p t ih => exact ih _ (selStep_length_le st p h)

/-- The diversity phase selects at most three products. -/
theorem diversePhase_length_le (shuffle : List ScoredProduct → List ScoredProduct)
    (sorted : List ScoredProduct) : (diversePhase shuffle sorted).length ≤ 3 :=
  foldl_selStep_length_le _ _ (by simp)

/-- Diversity selection plus backfill returns at most three products. -/
theorem selectDiverse_length_le (shuffle : List ScoredProduct → List ScoredProduct)
    (matched : List ScoredProduct) : (selectDiverse shuffle matched).length ≤ 3 := by
  unfold selectDiverse
  have h := diversePhase_length_le shuffle (sortByDesc (fun p => p.match_score) matched)
  simp only [List.length_append, List.length_take]
  omega

/-- `_match_products` returns at most three entries on every branch. -/
theorem matchProducts_length_le (rnd : Product → ℚ × ℚ)
    (shuffle : List ScoredProduct → List ScoredProduct)
    (sc : List (String × ℚ)) (u : UserProfile) (products : List Product) :
    (matchProducts rnd shuffle sc u products).length ≤ 3 := by
  unfold matchProducts
  dsimp only
  split
  · split
    · simp
    · simpa using Nat.le_trans (List.length_take_le _ _) (Nat.le_refl 3)
  · exact selectDiverse_length_le _ _

/-- C2 (corrected) main theorem: the recommendation list is capped at 3 for
every profile — elder-flagged or not.  `_get_product_rules` returns
`PRODUCT_RULES["default"]` unconditionally, and `_match_products` hard-codes
the bound 3; the `PRODUCT_RULES["elderly"]` entry with
`max_recommendations = 4` exists in `settings.py` but is never applied. -/
theorem recommendation_size_cap (rnd : Product → ℚ × ℚ)
    (shuffle : List ScoredProduct → List ScoredProduct)
    (sc : List (String × ℚ)) (u : UserProfile) (products : List Product) :
    (generateRecommendations rnd shuffle sc u products).length ≤ 3 ∧
    getProductRules u = PRODUCT_RULES_default ∧
    PRODUCT_RULES_elderly.max_recommendations = 4 := by
  refine ⟨?_, rfl, rfl⟩
  unfold generateRecommendations
  split
  · rename_i r heq
    unfold generateRecommendationsE at heq
    dsimp only at heq
    split at heq
    · cases heq
    · split at heq
      · cases heq; simp
      · have h := matchProducts_length_le rnd shuffle sc u products
        split at heq <;> cases heq
        · simp
        · exact h
  · simp

/-! ### Concrete scenario: three identical candidates (claim C3) -/

/-- A branded, categorised product used three times over. -/
def dupProd : Product := { product_name := "欧莱雅保湿面霜" }

/-- Skin conditions for the duplicate scenario. -/
def scDup : List (String × ℚ) := [("保湿", 1)]

/-- The scored form every copy of `dupProd` receives. -/
def spDup : ScoredProduct :=
  { toProduct := dupProd, match_score := 2, reason := "✅ 通用产品，适合所有性别" }

theorem calc_dup :
    calculateMatchScore rnd0 dupProd scDup ({} : UserProfile) = (spDup, 2) := by
  norm_num +decide [calculateMatchScore, rnd0, dupProd, scDup, spDup, detectFM, profileFM,
    skinData, saText, ptext, ageScorePart, problemScorePart, categoryBonusPart]

theorem matched_dup :
    matchedOf rnd0 scDup ({} : UserProfile) [dupProd, dupProd, dupProd]
      = [spDup, spDup, spDup] := by
  norm_num +decide [matchedOf, List.filterMap, calc_dup, secondaryFM, saText, skinData]

theorem sp_ms : spDup.match_score = 2 := rfl

theorem sorted_dup :
    sortByDesc (fun p => p.match_score) [spDup, spDup, spDup] = [spDup, spDup, spDup] := by
  norm_num [sortByDesc, insertDescBy, sp_ms]

theorem round1_dup : round1 spDup.match_score = 2 := by norm_num [round1, sp_ms]

theorem keys_dup : scoreKeysDesc [spDup, spDup, spDup] = [2] := by
  norm_num [scoreKeysDesc, round1_dup, List.dedup_cons_of_mem, List.dedup_cons_of_not_mem,
    sortByDesc, insertDescBy]

theorem groups_dup : groupsOf [spDup, spDup, spDup] = [[spDup, spDup, spDup]] := by
  norm_num [groupsOf, keys_dup, List.filter, round1_dup]

theorem dp_dup : diversePhase id [spDup, spDup, spDup] = [spDup] := by
  simp only [diversePhase, groups_dup, List.map, id, List.flatten, List.append_nil, List.foldl]
  norm_num [selStep, show currentBrand spDup = some "欧莱雅" from by decide,
    show currentCategory spDup = some "面霜" from by decide,
    List.countP, List.countP.go, List.contains,
    show isBranded spDup = true from by decide,
    show isCategorized spDup = true from by decide]

theorem sd_dup : selectDiverse id [spDup, spDup, spDup] = [spDup] := by
  simp only [selectDiverse, sorted_dup, dp_dup]
  norm_num [List.filter]

theorem mp_dup :
    matchProducts rnd0 id scDup ({} : UserProfile) [dupProd, dupProd, dupProd] = [spDup] := by
  simp only [matchProducts, matched_dup]
  norm_num [sd_dup]

/-! ### Concrete scenario: elder-flagged profile, four distinct candidates
(claims C2, C3) -/

/-- A profile whose skin analysis carries elderly markers ("老年", "成熟"). -/
def elderProfile : UserProfile := { skin_analysis := some (.strData "老年用户成熟肌肤") }

/-- Skin conditions for the elder scenario. -/
def scElder : List (String × ℚ) := [("干燥", 1)]

/-- Four gender-neutral products with four distinct category keywords. -/
def q1 : Product := { product_name := "补水液甲", product_type := "面霜" }

/-- Second product of the elder scenario. -/
def q2 : Product := { product_name := "保润液乙", product_type := "精华" }

/-- Third product of the elder scenario. -/
def q3 : Product := { product_name := "清透液丙", product_type := "乳液" }

/-- Fourth product of the elder scenario. -/
def q4 : Product := { product_name := "焕采液丁", product_type := "面膜" }

/-- The scored form of a neutral product in these scenarios. -/
def spQ (p : Product) : ScoredProduct :=
  { toProduct := p, match_score := 2, reason := "✅ 通用产品，适合所有性别" }

theorem calc_q1 : calculateMatchScore rnd0 q1 scElder elderProfile = (spQ q1, 2) := by
  norm_num +decide [calculateMatchScore, rnd0, q1, scElder, elderProfile, spQ, detectFM,
    profileFM, skinData, saText, ptext, ageScorePart, problemScorePart, categoryBonusPart]

theorem calc_q2 : calculateMatchScore rnd0 q2 scElder elderProfile = (spQ q2, 2) := by
  norm_num +decide [calculateMatchScore, rnd0, q2, scElder, elderProfile, spQ, detectFM,
    profileFM, skinData, saText, ptext, ageScorePart, problemScorePart, categoryBonusPart]

theorem calc_q3 : calculateMatchScore rnd0 q3 scElder elderProfile = (spQ q3, 2) := by
  norm_num +decide [calculateMatchScore, rnd0, q3, scElder, elderProfile, spQ, detectFM,
    profileFM, skinData, saText, ptext, ageScorePart, problemScorePart, categoryBonusPart]

theorem calc_q4 : calculateMatchScore rnd0 q4 scElder elderProfile = (spQ q4, 2) := by
  norm_num +decide [calculateMatchScore, rnd0, q4, scElder, elderProfile, spQ, detectFM,
    profileFM, skinData, saText, ptext, ageScorePart, problemScorePart, categoryBonusPart]

theorem matched_elder :
    matchedOf rnd0 scElder elderProfile [q1, q2, q3, q4]
      = [spQ q1, spQ q2, spQ q3, spQ q4] := by
  norm_num [matchedOf, List.filterMap, calc_q1, calc_q2, calc_q3, calc_q4,
    show secondaryFM elderProfile = (false, false) from by decide]

theorem spQ_ms (p : Product) : (spQ p).match_score = 2 := rfl

theorem sorted_elder :
    sortByDesc (fun p => p.match_score) [spQ q1, spQ q2, spQ q3, spQ q4]
      = [spQ q1, spQ q2, spQ q3, spQ q4] := by
  norm_num [sortByDesc, insertDescBy, spQ_ms]

theorem round1_spQ (p : Product) : round1 (spQ p).match_score = 2 := by
  norm_num [round1, spQ_ms]

theorem keys_elder : scoreKeysDesc [spQ q1, spQ q2, spQ q3, spQ q4] = [2] := by
  norm_num [scoreKeysDesc, round1_spQ, List.dedup_cons_of_mem, List.dedup_cons_of_not_mem,
    sortByDesc, insertDescBy]

theorem groups_elder :
    groupsOf [spQ q1, spQ q2, spQ q3, spQ q4] = [[spQ q1, spQ q2, spQ q3, spQ q4]] := by
  norm_num [groupsOf, keys_elder, List.filter, round1_spQ]

theorem dp_elder :
    diversePhase id [spQ q1, spQ q2, spQ q3, spQ q4] = [spQ q1, spQ q2] := by
  simp only [diversePhase, groups_elder, List.map, id, List.flatten, List.append_nil,
    List.foldl]
  norm_num [selStep, List.countP, List.countP.go, List.contains,
    show currentBrand (spQ q1) = none from by decide,
    show currentBrand (spQ q2) = none from by decide,
    show currentBrand (spQ q3) = none from by decide,
    show currentBrand (spQ q4) = none from by decide,
    show currentCategory (spQ q1) = some "面霜" from by decide,
    show currentCategory (spQ q2) = some "精华" from by decide,
    show currentCategory (spQ q3) = some "乳液" from by decide,
    show currentCategory (spQ q4) = some "面膜" from by decide,
    show isCategorized (spQ q1) = true from by decide,
    show isCategorized (spQ q2) = true from by decide,
    show isBranded (spQ q1) = false from by decide,
    show isBranded (spQ q2) = false from by decide]

theorem sd_elder :
    selectDiverse id [spQ q1, spQ q2, spQ q3, spQ q4] = [spQ q1, spQ q2, spQ q3] := by
  simp only [selectDiverse, sorted_elder, dp_elder]
  norm_num +decide [List.filter, spQ, q1, q2, q3, q4]

theorem mp_elder :
    matchProducts rnd0 id scElder elderProfile [q1, q2, q3, q4]
      = [spQ q1, spQ q2, spQ q3] := by
  simp only [matchProducts, matched_elder]
  norm_num [sd_elder]

theorem gen_elder :
    generateRecommendations rnd0 id scElder elderProfile [q1, q2, q3, q4]
      = [spQ q1, spQ q2, spQ q3] := by
  simp only [generateRecommendations, generateRecommendationsE,
    show scElder.isEmpty = false from rfl, mp_elder]
  norm_num

/-- C2 counterexample: an elder-flagged profile (its skin analysis carries
the "老年"/"成熟" markers) with four surviving candidates receives a
three-product list, not four — the elderly rule set's
`max_recommendations = 4` is never applied. -/
theorem elder_profile_gets_three_not_four_cex :
    anySub elderlyWords (saText elderProfile) = true ∧
    (matchedOf rnd0 scElder elderProfile [q1, q2, q3, q4]).length = 4 ∧
    (generateRecommendations rnd0 id scElder elderProfile [q1, q2, q3, q4]).length = 3 := by
  refine ⟨by decide, ?_, ?_⟩
  · rw [matched_elder]; rfl
  · rw [gen_elder]; rfl

/-- C3 counterexample: a pool of three identical surviving candidates (all
three pass the veto filter) yields a single-product list: the first copy is
selected, the other copies are skipped by the brand+category repetition
check, and the backfill's `p not in diverse_result` membership test removes
every remaining copy, so nothing is left to refill from. -/
theorem duplicate_pool_returns_one_cex :
    (matchedOf rnd0 scDup ({} : UserProfile) [dupProd, dupProd, dupProd]).length = 3 ∧
    (matchProducts rnd0 id scDup ({} : UserProfile) [dupProd, dupProd, dupProd]).length
      = 1 := by
  refine ⟨?_, ?_⟩
  · rw [matched_dup]; rfl
  · rw [mp_dup]; rfl

/-- One selection step either keeps the output list or appends the current
candidate to it. -/
theorem selStep_diverse_cases (st : SelState) (p : ScoredProduct) :
    (selStep st p).diverse = st.diverse ∨ (selStep st p).diverse = st.diverse ++ [p] := by
  unfold selStep
  dsimp only
  split
  · exact Or.inl rfl
  · split
    · exact Or.inl rfl
    · split
      · exact Or.inl rfl
      · split
        · exact Or.inl rfl
        · exact Or.inr rfl

/-- The selection fold appends (a subsequence of) its input list to the
initial output list. -/
theorem foldl_selStep_diverse_append :
    ∀ (l : List ScoredProduct) (st : SelState),
      ∃ t, ((l.foldl selStep st).diverse) = st.diverse ++ t ∧ t.Sublist l := by
  intro l
  induction l with
  | nil => intro st; exact ⟨[], by simp, List.nil_sublist _⟩
  | cons p tl ih =>
    intro st
    simp only [List.foldl_cons]
    obtain ⟨t, ht, hs⟩ := ih (selStep st p)
    rcases selStep_diverse_cases st p with hc | hc
    · exact ⟨t, by rw [ht, hc], List.Sublist.cons p hs⟩
    · refine ⟨p :: t, ?_, List.Sublist.cons₂ p hs⟩
      rw [ht, hc, List.append_assoc, List.singleton_append]

/-- Splitting a list's length by membership in another list. -/
theorem length_filter_mem_split {α : Type} [DecidableEq α] (l d : List α) :
    (l.filter (fun p => decide (p ∉ d))).length
      + (l.filter (fun p => decide (p ∈ d))).length = l.length := by
  have hfun : (fun a : α => decide ¬(decide (a ∈ d) = true)) = (fun a => decide (a ∉ d)) := by
    funext a; by_cases h : a ∈ d <;> simp [h]
  have h := List.length_eq_countP_add_countP (fun a : α => decide (a ∈ d)) l
  rw [hfun] at h
  rw [List.countP_eq_length_filter, List.countP_eq_length_filter] at h
  omega

/-- With a permuting shuffle and a duplicate-free pool of at least three
surviving candidates, diversity selection plus backfill returns exactly
three products. -/
theorem selectDiverse_length_eq (shuffle : List ScoredProduct → List ScoredProduct)
    (matched : List ScoredProduct)
    (hsh : ∀ xs, List.Perm (shuffle xs) xs) (hnd : matched.Nodup)
    (h3 : 3 ≤ matched.length) : (selectDiverse shuffle matched).length = 3 := by
  unfold selectDiverse
  dsimp only
  have hdle := diversePhase_length_le shuffle (sortByDesc (fun p => p.match_score) matched)
  have hsortnd : (sortByDesc (fun p => p.match_score) matched).Nodup :=
    (perm_sortByDesc _ _).nodup_iff.mpr hnd
  have hsortlen : (sortByDesc (fun p => p.match_score) matched).length = matched.length :=
    length_sortByDesc _ _
  set sorted := sortByDesc (fun p => p.match_score) matched with hsorted
  set d := diversePhase shuffle sorted with hdd
  have hfle : (sorted.filter (fun p => decide (p ∈ d))).length ≤ d.length := by
    refine List.Subperm.length_le (List.Nodup.subperm (hsortnd.filter _) ?_)
    intro x hx
    have hxx := List.of_mem_filter hx
    exact of_decide_eq_true hxx
  have hsplit := length_filter_mem_split sorted d
  rw [List.length_append, List.length_take, (hsh _).length_eq]
  omega

/-- C3 (corrected) main theorem: for every candidate pool the selected list
has at most 3 products, and whenever at least 3 pairwise-distinct candidates
survive the veto filter the list has exactly 3 products (backfill refills to
3 even when the diversity caps would leave fewer). -/
theorem select_k_bound (rnd : Product → ℚ × ℚ)
    (shuffle : List ScoredProduct → List ScoredProduct)
    (sc : List (String × ℚ)) (u : UserProfile) (products : List Product)
    (hsh : ∀ xs, List.Perm (shuffle xs) xs) :
    (matchProducts rnd shuffle sc u products).length ≤ 3 ∧
    ((matchedOf rnd sc u products).Nodup →
      3 ≤ (matchedOf rnd sc u products).length →
      (matchProducts rnd shuffle sc u products).length = 3) := by
  refine ⟨matchProducts_length_le _ _ _ _ _, ?_⟩
  intro hnd h3
  have hne : (matchedOf rnd sc u products).isEmpty = false := by
    cases hm : matchedOf rnd sc u products
    · rw [hm] at h3; simp at h3
    · simp
  unfold matchProducts
  dsimp only
  rw [hne]
  simp only [Bool.false_eq_true, if_false]
  exact selectDiverse_length_eq shuffle _ hsh hnd h3

/-- Closed witness for `select_k_bound`: the elder scenario has four
pairwise-distinct survivors, and selection returns exactly three. -/
theorem select_k_bound_witness :
    (matchedOf rnd0 scElder elderProfile [q1, q2, q3, q4]).Nodup ∧
    3 ≤ (matchedOf rnd0 scElder elderProfile [q1, q2, q3, q4]).length ∧
    (matchProducts rnd0 id scElder elderProfile [q1, q2, q3, q4]).length = 3 := by
  have hnd : (matchedOf rnd0 scElder elderProfile [q1, q2, q3, q4]).Nodup := by
    rw [matched_elder]
    norm_num +decide [spQ, q1, q2, q3, q4, List.nodup_cons]
  have h3 : 3 ≤ (matchedOf rnd0 scElder elderProfile [q1, q2, q3, q4]).length := by
    rw [matched_elder]; simp
  exact ⟨hnd, h3,
    (select_k_bound rnd0 id scElder elderProfile [q1, q2, q3, q4]
      (fun xs => List.Perm.refl xs)).2 hnd h3⟩

/-- `_calculate_match_score` keeps the product's own fields in the record it
returns. -/
theorem calc_toProduct (rnd : Product → ℚ × ℚ) (p : Product)
    (sc : List (String × ℚ)) (u : UserProfile) :
    (calculateMatchScore rnd p sc u).1.toProduct = p := by
  unfold calculateMatchScore
  dsimp only
  split
  · rfl
  · split <;> rfl

/-- When the profile's own signals already fix the gender, the product-name
inference (method 3) never fires. -/
theorem detectFM_of_profile_female (u : UserProfile) (name : String)
    (hf : (profileFM u).1 = true) : detectFM u name = profileFM u := by
  unfold detectFM
  dsimp only
  rw [hf]
  simp

/-- Same for a profile fixed as male. -/
theorem detectFM_of_profile_male (u : UserProfile) (name : String)
    (hm : profileFM u = (false, true)) : detectFM u name = profileFM u := by
  unfold detectFM
  dsimp only
  rw [hm]
  simp

/-- A female-detected profile and a male-marked product short-circuit to the
−100 sentinel. -/
theorem calc_veto_female (rnd : Product → ℚ × ℚ) (sc : List (String × ℚ))
    (u : UserProfile) (p : Product) (hf : (profileFM u).1 = true)
    (hm : anySub vetoMaleWords (ptext p) = true) :
    (calculateMatchScore rnd p sc u).2 = -100 := by
  have hd := detectFM_of_profile_female u p.product_name hf
  simp [calculateMatchScore, hd, hf, hm]

/-- A male-detected profile and a female-marked product short-circuit to the
−100 sentinel. -/
theorem calc_veto_male (rnd : Product → ℚ × ℚ) (sc : List (String × ℚ))
    (u : UserProfile) (p : Product) (hm : profileFM u = (false, true))
    (hf : anySub vetoFemaleWords (ptext p) = true) :
    (calculateMatchScore rnd p sc u).2 = -100 := by
  have hd := detectFM_of_profile_male u p.product_name hm
  simp [calculateMatchScore, hd, hm, hf]

/-- Every survivor of the strict pass is the scored form of a catalog
product whose score is not below the veto threshold. -/
theorem mem_matchedOf {rnd : Product → ℚ × ℚ} {sc : List (String × ℚ)}
    {u : UserProfile} {products : List Product} (q : ScoredProduct)
    (h : q ∈ matchedOf rnd sc u products) :
    ∃ p ∈ products, (calculateMatchScore rnd p sc u).1 = q ∧
      ¬((calculateMatchScore rnd p sc u).2 < -50) := by
  unfold matchedOf at h
  obtain ⟨p, hp, he⟩ := List.mem_filterMap.mp h
  refine ⟨p, hp, ?_⟩
  dsimp only at he
  by_cases hlt : (calculateMatchScore rnd p sc u).2 < -50
  · rw [if_pos hlt] at he; cases he
  · rw [if_neg hlt] at he
    refine ⟨?_, hlt⟩
    repeat' split at he
    all_goals first
      | (injection he with he2; exact he2)
      | injection he

/-- Every member of a score bucket comes from the bucketed list. -/
theorem mem_groupsOf {l g : List ScoredProduct} (hg : g ∈ groupsOf l) :
    ∀ x ∈ g, x ∈ l := by
  unfold groupsOf at hg
  obtain ⟨k, _, hk⟩ := List.mem_map.mp hg
  intro x hx
  rw [← hk] at hx
  exact List.mem_of_mem_filter hx

/-- With a permuting shuffle, selection plus backfill only returns
candidates from the surviving pool. -/
theorem mem_selectDiverse (shuffle : List ScoredProduct → List ScoredProduct)
    (matched : List ScoredProduct) (hsh : ∀ xs, List.Perm (shuffle xs) xs)
    (q : ScoredProduct) (h : q ∈ selectDiverse shuffle matched) : q ∈ matched := by
  unfold selectDiverse at h
  dsimp only at h
  rcases List.mem_append.mp h with h | h
  · unfold diversePhase at h
    obtain ⟨t, ht, hs⟩ := foldl_selStep_diverse_append
      (((groupsOf (sortByDesc (fun p => p.match_score) matched)).map shuffle).flatten)
      { diverse := [], selBrands := [], selCats := [] }
    rw [ht] at h
    simp only [List.nil_append] at h
    have hq := hs.subset h
    obtain ⟨gl, hgl, hqg⟩ := List.mem_flatten.mp hq
    obtain ⟨g, hg, rfl⟩ := List.mem_map.mp hgl
    have hqg2 : q ∈ g := (hsh g).mem_iff.mp hqg
    exact (mem_sortByDesc _ _ q).mp (mem_groupsOf hg q hqg2)
  · have h1 := List.mem_of_mem_take h
    have h2 := (hsh _).mem_iff.mp h1
    have h3 := List.mem_of_mem_filter h2
    exact (mem_sortByDesc _ _ q).mp h3

/-- C1 (corrected) main theorem: whenever the profile's own signals fix the
user's gender and the strict pass leaves at least one candidate, no product
whose name/details text carries an opposite-gender marker appears in
`_match_products`' output — the marker short-circuits scoring to the −100
sentinel and the candidate is dropped before selection.  (When the strict
pass leaves nothing, the relaxed fallback can leak such products; see the
counterexample.) -/
theorem gender_veto_strict_pass (rnd : Product → ℚ × ℚ)
    (shuffle : List ScoredProduct → List ScoredProduct)
    (sc : List (String × ℚ)) (u : UserProfile) (products : List Product)
    (hsh : ∀ xs, List.Perm (shuffle xs) xs)
    (hne : matchedOf rnd sc u products ≠ []) :
    ((profileFM u).1 = true →
      ∀ q ∈ matchProducts rnd shuffle sc u products,
        anySub vetoMaleWords (ptext q.toProduct) = false) ∧
    (profileFM u = (false, true) →
      ∀ q ∈ matchProducts rnd shuffle sc u products,
        anySub vetoFemaleWords (ptext q.toProduct) = false) := by
  have hmm : matchProducts rnd shuffle sc u products
      = selectDiverse shuffle (matchedOf rnd sc u products) := by
    unfold matchProducts
    dsimp only
    rw [if_neg (by simp [List.isEmpty_iff, hne])]
  constructor
  · intro hf q hq
    by_contra hmark
    have hmark2 : anySub vetoMaleWords (ptext q.toProduct) = true := by
      cases hv : anySub vetoMaleWords (ptext q.toProduct) <;> simp_all
    rw [hmm] at hq
    obtain ⟨p, _, hcalc, hge⟩ :=
      mem_matchedOf q (mem_selectDiverse shuffle _ hsh q hq)
    have htp : q.toProduct = p := by rw [← hcalc]; exact calc_toProduct rnd p sc u
    rw [htp] at hmark2
    have hveto := calc_veto_female rnd sc u p hf hmark2
    rw [hveto] at hge
    norm_num at hge
  · intro hm q hq
    by_contra hmark
    have hmark2 : anySub vetoFemaleWords (ptext q.toProduct) = true := by
      cases hv : anySub vetoFemaleWords (ptext q.toProduct) <;> simp_all
    rw [hmm] at hq
    obtain ⟨p, _, hcalc, hge⟩ :=
      mem_matchedOf q (mem_selectDiverse shuffle _ hsh q hq)
    have htp : q.toProduct = p := by rw [← hcalc]; exact calc_toProduct rnd p sc u
    rw [htp] at hmark2
    have hveto := calc_veto_male rnd sc u p hm hmark2
    rw [hveto] at hge
    norm_num at hge

/-! ### Concrete scenario: detected-female profile (claim C1) -/

/-- A profile with the engine-detected gender set to female. -/
def femVetoProfile : UserProfile := { detected_gender := "女性" }

/-- A male-marked product (name contains "男士"). -/
def maleMoistProd : Product := { product_name := "男士保湿霜" }

/-- The vetoed scored form of `maleMoistProd` for a female profile. -/
def spMale : ScoredProduct :=
  { toProduct := maleMoistProd, match_score := -100,
    reason := "❌ 男士专用产品，不适合女性使用" }

theorem calc_male_veto :
    calculateMatchScore rnd0 maleMoistProd scElder femVetoProfile = (spMale, -100) := by
  norm_num +decide [calculateMatchScore, rnd0, maleMoistProd, femVetoProfile, spMale,
    detectFM, profileFM, skinData, saText, ptext]

theorem matched_male_empty :
    matchedOf rnd0 scElder femVetoProfile [maleMoistProd] = [] := by
  norm_num [matchedOf, List.filterMap, calc_male_veto]

theorem fb_male :
    fallbackMatched rnd0 scElder femVetoProfile [maleMoistProd] = [spMale] := by
  norm_num [fallbackMatched, List.filterMap, calc_male_veto,
    show secondaryFM femVetoProfile = (false, false) from by decide]

theorem mp_male :
    matchProducts rnd0 id scElder femVetoProfile [maleMoistProd] = [spMale] := by
  simp only [matchProducts, matched_male_empty, fb_male]
  norm_num [sortByDesc, insertDescBy]

/-- C1 counterexample: a profile the engine knows to be female and a catalog
whose only product is male-marked.  The strict pass vetoes everything, the
relaxed fallback only drops explicit "专用/系列" markers (and here detects no
gender from the empty skin-analysis text at all), so the male-marked product
is returned to the user. -/
theorem male_product_leaks_via_fallback_cex :
    (profileFM femVetoProfile).1 = true ∧
    anySub vetoMaleWords (ptext maleMoistProd) = true ∧
    (matchProducts rnd0 id scElder femVetoProfile [maleMoistProd]).map
        (fun q => q.toProduct.product_name) = ["男士保湿霜"] := by
  refine ⟨by decide, by decide, ?_⟩
  rw [mp_male]
  rfl

theorem calc_fem_q1 :
    calculateMatchScore rnd0 q1 scElder femVetoProfile = (spQ q1, 2) := by
  norm_num +decide [calculateMatchScore, rnd0, q1, scElder, femVetoProfile, spQ, detectFM,
    profileFM, skinData, saText, ptext, ageScorePart, problemScorePart, categoryBonusPart]

theorem matched_fem_q1 :
    matchedOf rnd0 scElder femVetoProfile [q1] = [spQ q1] := by
  norm_num [matchedOf, List.filterMap, calc_fem_q1,
    show secondaryFM femVetoProfile = (false, false) from by decide]

/-- Closed witness for `gender_veto_strict_pass`: a detected-female profile
whose strict pass keeps one neutral product; no output product is
male-marked. -/
theorem gender_veto_strict_pass_witness :
    matchedOf rnd0 scElder femVetoProfile [q1] ≠ [] ∧
    (profileFM femVetoProfile).1 = true ∧
    ∀ q ∈ matchProducts rnd0 id scElder femVetoProfile [q1],
      anySub vetoMaleWords (ptext q.toProduct) = false := by
  have hne : matchedOf rnd0 scElder femVetoProfile [q1] ≠ [] := by
    rw [matched_fem_q1]; simp
  exact ⟨hne, by decide,
    (gender_veto_strict_pass rnd0 id scElder femVetoProfile [q1]
      (fun xs => List.Perm.refl xs) hne).1 (by decide)⟩

/-- `find?` succeeds exactly when some element satisfies the predicate. -/
theorem find?_isSome_eq_any {α : Type} (f : α → Bool) (l : List α) :
    (l.find? f).isSome = l.any f := by
  induction l with
  | nil => rfl
  | cons x t ih =>
    cases h : f x
    · rw [List.find?_cons_of_neg _ (by simp [h]), List.any_cons, h, ih]
      simp
    · rw [List.find?_cons_of_pos _ h]
      simp [List.any_cons, h]

/-- A product has a detected brand exactly when it counts toward the brand
cap. -/
theorem currentBrand_isSome (p : ScoredProduct) :
    (currentBrand p).isSome = isBranded p :=
  find?_isSome_eq_any _ _

/-- A product has a detected category exactly when it counts toward the
category cap. -/
theorem currentCategory_isSome (p : ScoredProduct) :
    (currentCategory p).isSome = isCategorized p :=
  find?_isSome_eq_any _ _

/-- The diversity invariant of the selection loop: at most two selected
items carry any brand keyword, at most two carry any category keyword. -/
def capsOK (st : SelState) : Prop :=
  st.diverse.countP isBranded ≤ 2 ∧ st.diverse.countP isCategorized ≤ 2

/-- One selection step preserves the diversity invariant: a candidate that
would raise either count past two is skipped. -/
theorem selStep_caps (st : SelState) (p : ScoredProduct) (h : capsOK st) :
    capsOK (selStep st p) := by
  unfold selStep
  dsimp only
  split
  · exact h
  · split
    · exact h
    · split
      · exact h
      · split
        · exact h
        · rename_i hb hc
          constructor
          · rw [capsOK] at h
            show (st.diverse ++ [p]).countP isBranded ≤ 2
            rw [List.countP_append]
            by_cases hbp : isBranded p = true
            · have hsome : (currentBrand p).isSome = true := by
                rw [currentBrand_isSome]; exact hbp
              have hlt : ¬(2 ≤ st.diverse.countP isBranded) := by
                intro hge
                exact hb (by simp [hsome, hge])
              simp only [List.countP_cons, List.countP_nil, hbp, if_true]
              omega
            · simp only [List.countP_cons, List.countP_nil,
                Bool.not_eq_true] at hbp ⊢
              rw [hbp]
              simpa using h.1
          · rw [capsOK] at h
            show (st.diverse ++ [p]).countP isCategorized ≤ 2
            rw [List.countP_append]
            by_cases hcp : isCategorized p = true
            · have hsome : (currentCategory p).isSome = true := by
                rw [currentCategory_isSome]; exact hcp
              have hlt : ¬(2 ≤ st.diverse.countP isCategorized) := by
                intro hge
                exact hc (by simp [hsome, hge])
              simp only [List.countP_cons, List.countP_nil, hcp, if_true]
              omega
            · simp only [List.countP_cons, List.countP_nil,
                Bool.not_eq_true] at hcp ⊢
              rw [hcp]
              simpa using h.2

/-- The selection fold preserves the diversity invariant. -/
theorem foldl_selStep_caps (l : List ScoredProduct) (st : SelState)
    (h : capsOK st) : capsOK (l.foldl selStep st) := by
  induction l generalizing st with
  | nil => exact h
  | cons p t ih => exact ih _ (selStep_caps st p h)

/-- The diversity phase obeys both caps. -/
theorem diversePhase_caps (shuffle : List ScoredProduct → List ScoredProduct)
    (sorted : List ScoredProduct) :
    (diversePhase shuffle sorted).countP isBranded ≤ 2 ∧
    (diversePhase shuffle sorted).countP isCategorized ≤ 2 :=
  foldl_selStep_caps _ _ ⟨by simp, by simp⟩

/-- Counting with a stronger predicate counts no more elements. -/
theorem countP_le_countP {α : Type} (f g : α → Bool) (l : List α)
    (h : ∀ a, f a = true → g a = true) : l.countP f ≤ l.countP g := by
  induction l with
  | nil => simp
  | cons x t ih =>
    by_cases hx : f x = true
    · simp only [List.countP_cons, hx, h x hx, if_true]
      omega
    · simp only [List.countP_cons, Bool.not_eq_true] at hx ⊢
      rw [hx]
      simp only [Bool.false_eq_true, if_false]
      split <;> omega

/-- C4 (confirmed): when the backfill step contributed nothing (the selected
list is exactly the diversity-phase output), at most 2 selected items share
any single recognized brand keyword, and at most 2 share any single
recognized category keyword (brand = keyword in the product name, category =
keyword in the product type or name, per the fixed keyword lists). -/
theorem diversity_caps (rnd : Product → ℚ × ℚ)
    (shuffle : List ScoredProduct → List ScoredProduct)
    (sc : List (String × ℚ)) (u : UserProfile) (products : List Product)
    (hnb : matchProducts rnd shuffle sc u products
        = diversePhase shuffle
            (sortByDesc (fun p => p.match_score) (matchedOf rnd sc u products))) :
    (∀ kw ∈ brandKeywords,
      (matchProducts rnd shuffle sc u products).countP
        (fun q => substr kw q.toProduct.product_name) ≤ 2) ∧
    (∀ kw ∈ categoryKeywords,
      (matchProducts rnd shuffle sc u products).countP
        (fun q => substr kw q.toProduct.product_type
          || substr kw q.toProduct.product_name) ≤ 2) := by
  constructor
  · intro kw hkw
    rw [hnb]
    refine le_trans (countP_le_countP _ _ _ ?_) (diversePhase_caps shuffle _).1
    intro a ha
    unfold isBranded
    rw [List.any_eq_true]
    exact ⟨kw, hkw, ha⟩
  · intro kw hkw
    rw [hnb]
    refine le_trans (countP_le_countP _ _ _ ?_) (diversePhase_caps shuffle _).2
    intro a ha
    unfold isCategorized
    rw [List.any_eq_true]
    exact ⟨kw, hkw, ha⟩

/-- Closed witness for `diversity_caps`: in the duplicate scenario the
backfill adds nothing, and both caps hold of the output. -/
theorem diversity_caps_witness :
    (matchProducts rnd0 id scDup ({} : UserProfile) [dupProd, dupProd, dupProd]).countP
        (fun q => substr "欧莱雅" q.toProduct.product_name) ≤ 2 ∧
    (matchProducts rnd0 id scDup ({} : UserProfile) [dupProd, dupProd, dupProd]).countP
        (fun q => substr "面霜" q.toProduct.product_type
          || substr "面霜" q.toProduct.product_name) ≤ 2 := by
  have hnb : matchProducts rnd0 id scDup ({} : UserProfile) [dupProd, dupProd, dupProd]
      = diversePhase id (sortByDesc (fun p => p.match_score)
          (matchedOf rnd0 scDup ({} : UserProfile) [dupProd, dupProd, dupProd])) := by
    rw [mp_dup, matched_dup, sorted_dup, dp_dup]
  have h := diversity_caps rnd0 id scDup {} [dupProd, dupProd, dupProd] hnb
  exact ⟨h.1 "欧莱雅" (by decide), h.2 "面霜" (by decide)⟩

/-! ## Soundness of the inverted metadata index (claim C6) -/

/-- Looking up after a `defaultdict` append: the touched key gains the new
id at the end, all other keys are unchanged. -/
theorem lookupD_indexAppend (idx : List (String × List Nat)) (key key2 : String)
    (n : Nat) :
    lookupD (indexAppend idx key n) key2
      = if key2 = key then lookupD idx key ++ [n] else lookupD idx key2 := by
  induction idx with
  | nil =>
    by_cases h : key2 = key
    · subst h; simp [indexAppend, lookupD, lookupStr]
    · simp [indexAppend, lookupD, lookupStr, h, Ne.symm h]
  | cons hd tl ih =>
    obtain ⟨k, v⟩ := hd
    by_cases hk : k = key <;> by_cases h2 : k = key2 <;> by_cases h3 : key2 = key <;>
      simp_all [indexAppend, lookupD, lookupStr]

/-- Membership after registering a document under its metadata pairs: either
the id was already there, or it is the new id under one of the new keys. -/
theorem mem_lookupD_updateIndex (pairs : List (String × String))
    (idx : List (String × List Nat)) (n : Nat) (key : String) (i : Nat)
    (h : i ∈ lookupD (updateIndex idx n pairs) key) :
    i ∈ lookupD idx key ∨ (i = n ∧ ∃ kv ∈ pairs, mkKey kv.1 kv.2 = key) := by
  induction pairs generalizing idx with
  | nil => exact Or.inl h
  | cons kv rest ih =>
    rcases ih _ h with h2 | h2
    · rw [lookupD_indexAppend] at h2
      by_cases hk : key = mkKey kv.1 kv.2
      · rw [if_pos hk] at h2
        rcases List.mem_append.mp h2 with h3 | h3
        · left; rw [hk]; exact h3
        · right
          simp only [List.mem_singleton] at h3
          exact ⟨h3, kv, List.mem_cons_self _ _, hk.symm⟩
      · rw [if_neg hk] at h2
        exact Or.inl h2
    · obtain ⟨hi, kv2, hkv2, hkey⟩ := h2
      exact Or.inr ⟨hi, kv2, List.mem_cons_of_mem _ hkv2, hkey⟩

/-- Splitting at a separator character absent from both prefixes is
unambiguous. -/
theorem append_sep_inj (a1 : List Char) :
    ∀ (a2 b1 b2 : List Char), ':' ∉ a1 → ':' ∉ a2 →
      a1 ++ ':' :: b1 = a2 ++ ':' :: b2 → a1 = a2 ∧ b1 = b2 := by
  induction a1 with
  | nil =>
    intro a2 b1 b2 _ h2 h
    cases a2 with
    | nil => simpa using h
    | cons c t =>
      simp only [List.nil_append, List.cons_append, List.cons.injEq] at h
      exact absurd (h.1 ▸ List.mem_cons_self c t) h2
  | cons c t ih =>
    intro a2 b1 b2 h1 h2 h
    cases a2 with
    | nil =>
      simp only [List.nil_append, List.cons_append, List.cons.injEq] at h
      exact absurd (h.1.symm ▸ List.mem_cons_self c t) h1
    | cons c2 t2 =>
      simp only [List.cons_append, List.cons.injEq] at h
      obtain ⟨hc, hrest⟩ := h
      have hn1 : ':' ∉ t := fun hm => h1 (List.mem_cons_of_mem _ hm)
      have hn2 : ':' ∉ t2 := fun hm => h2 (List.mem_cons_of_mem _ hm)
      obtain ⟨ha, hb⟩ := ih t2 b1 b2 hn1 hn2 hrest
      exact ⟨by rw [hc, ha], hb⟩

/-- `f"{k}:{v}"` is injective as long as the key part is colon-free. -/
theorem mkKey_inj (k1 v1 k2 v2 : String)
    (h1 : ':' ∉ k1.toList) (h2 : ':' ∉ k2.toList)
    (h : mkKey k1 v1 = mkKey k2 v2) : k1 = k2 ∧ v1 = v2 := by
  have hdata : k1.toList ++ ':' :: v1.toList = k2.toList ++ ':' :: v2.toList := by
    have hc := congrArg String.data h
    simpa [mkKey, String.data_append, String.toList] using hc
  obtain ⟨ha, hb⟩ := append_sep_inj k1.toList k2.toList v1.toList v2.toList h1 h2 hdata
  constructor
  · cases k1; cases k2; simp only [String.toList] at ha; rw [ha]
  · cases v1; cases v2; simp only [String.toList] at hb; rw [hb]

/-- Every metadata pair of a processed document either is the category pair
itself or carries one of the six fixed non-category keys. -/
theorem mdPairs_shape (data : RawData) (category : String) (kv : String × String)
    (hmem : kv ∈ mdPairs (extractMetadata data category)) :
    (kv.1 = "category" ∧ kv.2 = category) ∨
      kv.1 ∈ ["condition_type", "severity", "related_conditions",
              "product_type", "suitable_for", "ingredients"] := by
  unfold mdPairs extractMetadata at hmem
  obtain ⟨a, ha, hv⟩ := List.mem_flatMap.mp hmem
  obtain ⟨v, _, rfl⟩ := List.mem_map.mp hv
  rcases List.mem_cons.mp ha with ha | ha
  · subst ha
    rename_i hvv
    simp only [mvalues, List.mem_singleton] at hvv
    exact Or.inl ⟨rfl, hvv⟩
  · right
    by_cases hsc : category = "skin_conditions"
    · rw [if_pos hsc] at ha
      simp only [List.mem_cons, List.not_mem_nil, or_false] at ha
      rcases ha with ha | ha | ha <;> (subst ha; simp)
    · rw [if_neg hsc] at ha
      by_cases hpr : category = "products"
      · rw [if_pos hpr] at ha
        simp only [List.mem_cons, List.not_mem_nil, or_false] at ha
        rcases ha with ha | ha | ha <;> (subst ha; simp)
      · rw [if_neg hpr] at ha
        cases ha

/-- If a metadata pair of a document processed under `category` renders to
the index key `"category:" ++ c`, then `category = c`. -/
theorem mdPairs_category_sound (data : RawData) (category c : String)
    (kv : String × String) (hmem : kv ∈ mdPairs (extractMetadata data category))
    (hkey : mkKey kv.1 kv.2 = mkKey "category" c) : category = c := by
  rcases mdPairs_shape data category kv hmem with ⟨hk, hv⟩ | hk
  · rw [hk, hv] at hkey
    exact (mkKey_inj "category" category "category" c (by decide) (by decide) hkey).2
  · simp only [List.mem_cons, List.not_mem_nil, or_false] at hk
    rcases hk with h | h | h | h | h | h <;>
      · rw [h] at hkey
        exact absurd (mkKey_inj _ _ _ _ (by decide) (by decide) hkey).1 (by decide)

/-- The index-soundness invariant: every id stored under a
`"category:c"`-shaped key points to a stored document of category `c`. -/
def IndexCatInv (docs : List StoredDoc) (idx : List (String × List Nat)) : Prop :=
  ∀ key i, i ∈ lookupD idx key →
    ∃ d, docs.get? i = some d ∧ ∀ c, key = mkKey "category" c → d.category = c

/-- `_process_document` preserves the index-soundness invariant. -/
theorem processDoc_inv (st : List StoredDoc × List (String × List Nat))
    (raw : RawData × String) (h : IndexCatInv st.1 st.2) :
    IndexCatInv (processDoc st raw).1 (processDoc st raw).2 := by
  intro key i hi
  unfold processDoc at hi ⊢
  dsimp only at hi ⊢
  rcases mem_lookupD_updateIndex _ _ _ _ _ hi with h2 | h2
  · obtain ⟨d, hd, hc⟩ := h key i h2
    refine ⟨d, ?_, hc⟩
    rw [List.get?_append (List.get?_eq_some.mp hd).1]
    exact hd
  · obtain ⟨rfl, kv, hkv, hkey⟩ := h2
    refine ⟨_, List.get?_concat_length _ _, ?_⟩
    intro c hkc
    exact mdPairs_category_sound raw.1 raw.2 c kv hkv (by rw [hkey, hkc])

/-- The index built by `buildKM` is category-sound. -/
theorem buildKM_inv (raws : List (RawData × String)) :
    IndexCatInv (buildKM raws).documents (buildKM raws).metadataIndex := by
  have hgen : ∀ (rs : List (RawData × String)) st, IndexCatInv st.1 st.2 →
      IndexCatInv (rs.foldl processDoc st).1 (rs.foldl processDoc st).2 := by
    intro rs
    induction rs with
    | nil => intro st h; exact h
    | cons r t ih => intro st h; exact ih _ (processDoc_inv st r h)
  exact hgen raws ([], []) (by intro key i hi; simp [lookupD, lookupStr] at hi)

/-- C6 (confirmed): every document returned by `search` satisfies all
requested filters conjunctively — with a `category` argument its stored
category equals the requested one (so a `skin_conditions` search can never
return a `products` document), and for every metadata filter key and value
it is registered under that `"key:value"` entry of the inverted index. -/
theorem filter_and_semantics (raws : List (RawData × String))
    (pairs : List (Nat × ℚ)) (q : String) (copt : Option String)
    (fopt : Option (List (String × MVal))) (k : Nat) (uc : Bool) :
    ∀ r ∈ (search (buildKM raws) (some pairs) q copt fopt k uc).1,
      ∃ i, (buildKM raws).documents.get? i = some r.doc ∧
        (∀ c, copt = some c → r.doc.category = c) ∧
        (∀ fs, fopt = some fs → ∀ kv ∈ fs, ∀ v ∈ mvalues kv.2,
          i ∈ lookupD (buildKM raws).metadataIndex (mkKey kv.1 v)) := by
  intro r hr
  obtain ⟨idx, dist, pairs2, _, _, hdoc, hpass, _⟩ :=
    search_results_mem _ _ _ _ _ _ _ (buildKM_cache_lookup raws _) r hr
  refine ⟨idx, hdoc, ?_, ?_⟩
  · intro c hc
    subst hc
    unfold passFilters at hpass
    obtain ⟨ha, _⟩ := Bool.and_eq_true_iff.mp hpass
    have h2 : idx ∈ lookupD (buildKM raws).metadataIndex (mkKey "category" c) := by
      simpa using ha
    obtain ⟨d, hd, hc2⟩ := buildKM_inv raws _ idx h2
    rw [hdoc] at hd
    injection hd with hd
    rw [hd]
    exact hc2 c rfl
  · intro fs hfs kv hkv v hv
    subst hfs
    unfold passFilters at hpass
    obtain ⟨_, hb⟩ := Bool.and_eq_true_iff.mp hpass
    have h3 := List.all_eq_true.mp hb kv hkv
    have h4 := List.all_eq_true.mp h3 v hv
    simpa using h4

/-- The stored form of `collisionRaw` under category `skin_conditions`. -/
def collisionDoc : StoredDoc :=
  { content := "acne doc"
    metadata := [("category", MVal.s "skin_conditions"), ("condition_type", MVal.pynone),
                 ("severity", MVal.l []), ("related_conditions", MVal.l [])]
    category := "skin_conditions"
    source := "s" }

/-- That document as a search result at distance 0. -/
def collisionScored : ScoredDoc := { doc := collisionDoc, similarity_score := 1 }

theorem search_cat_eval :
    (search (buildKM [(collisionRaw, "skin_conditions")]) (some [(0, 0)]) "w"
        (some "skin_conditions") none 5 false).1 = [collisionScored] := by
  norm_num +decide [search, buildKM, collisionRaw, processDoc, extractMetadata, mdPairs,
    mvalues, updateIndex, indexAppend, mkKey, cacheKey, pyStrOpt, pyStrFilters, lookupStr,
    collectResults, passFilters, lookupD, simScore, sortByDesc, insertDescBy,
    collisionScored, collisionDoc]

/-- Closed witness for `filter_and_semantics`: a concrete
`skin_conditions`-filtered search whose one result is the stored
`skin_conditions` document. -/
theorem filter_and_semantics_witness :
    ∃ i, (buildKM [(collisionRaw, "skin_conditions")]).documents.get? i
          = some collisionScored.doc ∧
      (∀ c, (some "skin_conditions" : Option String) = some c →
        collisionScored.doc.category = c) ∧
      (∀ fs, (none : Option (List (String × MVal))) = some fs →
        ∀ kv ∈ fs, ∀ v ∈ mvalues kv.2,
          i ∈ lookupD (buildKM [(collisionRaw, "skin_conditions")]).metadataIndex
            (mkKey kv.1 v)) :=
  filter_and_semantics [(collisionRaw, "skin_conditions")] [(0, 0)] "w"
    (some "skin_conditions") none 5 false collisionScored
    (by rw [search_cat_eval]; exact List.mem_singleton.mpr rfl)

end TimelessSkin
